import Mathlib

/-!
Verification of the download-bot core (task registry, rate limiter, TTL
cache, progress tracker, progress-hook adapter) against its specification.

Wall-clock timestamps (Python floats from `time.time()`) are modelled as
rationals; machine integers as `Int`.  Python dictionaries are modelled as
association lists (first entry with a key wins, as in a dict there is at
most one entry per key), and Python sets as duplicate-free lists.
-/

namespace SuperDownloader

/-- Lookup in an association list, as Python `d.get(k)` / `d[k]`. -/
def dictGet {K V : Type} [DecidableEq K] (m : List (K × V)) (k : K) : Option V :=
  match m with
  | [] => none
  | (k0, v0) :: rest => if k0 = k then some v0 else dictGet rest k

/-- Lookup with default, as Python `d.get(k, dflt)`. -/
def dictGetD {K V : Type} [DecidableEq K] (m : List (K × V)) (k : K) (dflt : V) : V :=
  (dictGet m k).getD dflt

/-- Key update, as Python `d[k] = v`: replace the entry if the key is
present, otherwise append a new entry. -/
def dictSet {K V : Type} [DecidableEq K] (m : List (K × V)) (k : K) (v : V) :
    List (K × V) :=
  match m with
  | [] => [(k, v)]
  | (k0, v0) :: rest => if k0 = k then (k, v) :: rest else (k0, v0) :: dictSet rest k v

/-- Key removal, as Python `del d[k]`. -/
def dictDel {K V : Type} [DecidableEq K] (m : List (K × V)) (k : K) : List (K × V) :=
  match m with
  | [] => []
  | (k0, v0) :: rest => if k0 = k then rest else (k0, v0) :: dictDel rest k

/-- Membership test, as Python `k in d`. -/
def dictMem {K V : Type} [DecidableEq K] (m : List (K × V)) (k : K) : Bool :=
  (dictGet m k).isSome

/-- Python `set.add`: insert an element if it is not already present. -/
def setAdd {A : Type} [DecidableEq A] (s : List A) (x : A) : List A :=
  if x ∈ s then s else s ++ [x]

/-- Python `set.discard`: remove an element; no-op when absent. -/
def setDiscard {A : Type} [DecidableEq A] (s : List A) (x : A) : List A :=
  s.filter (fun y => decide (y ≠ x))

/-! ## Rate limiter (`BotState.check_rate_limit`, src/bot.py lines 462-486)

The per-user state is the list `self._rate_limits[user_id]` of recorded
call timestamps.  The method purges entries `ts` with `ts > cutoff_time`
being false (`cutoff_time = current_time - window`), counts the survivors,
and appends `current_time` exactly when the count is below the limit. -/

/-- Model of `BotState.check_rate_limit` (src/bot.py lines 462-486), acting on the
one user's timestamp list.  Returns the `(is_allowed, remaining_count)`
pair together with the user's timestamp list as the method leaves it. -/
def check_rate_limit (ts : List ℚ) (limit : Int) (window : ℚ) (now : ℚ) :
    (Bool × Int) × List ℚ :=
  let cutoff_time := now - window
  let kept := ts.filter (fun t => decide (cutoff_time < t))
  let current_count : Int := kept.length
  let remaining := limit - current_count
  if current_count < limit then ((true, remaining - 1), kept ++ [now])
  else ((false, 0), kept)

/-- The rate-limit check exactly as claim C1 words it: purge the
timestamps *strictly older than* `now - window` (keeping those at or after
the cutoff), then compare the surviving count to the limit. -/
def rateLimitSpecClaimed (ts : List ℚ) (limit : Int) (window : ℚ) (now : ℚ) :
    (Bool × Int) × List ℚ :=
  let surviving := ts.filter (fun t => decide (¬ t < now - window))
  let count : Int := surviving.length
  if count < limit then ((true, limit - count - 1), surviving ++ [now])
  else ((false, 0), surviving)

/-- The rate-limit check as claim C1 must be amended: the purge also
drops a timestamp lying *exactly at* `now - window` (the code keeps only
timestamps strictly newer than the cutoff). -/
def rateLimitSpecAmended (ts : List ℚ) (limit : Int) (window : ℚ) (now : ℚ) :
    (Bool × Int) × List ℚ :=
  let surviving := ts.filter (fun t => decide (now - window < t))
  let count : Int := surviving.length
  if count < limit then ((true, limit - count - 1), surviving ++ [now])
  else ((false, 0), surviving)

/-- Run a sequence of `check_rate_limit` calls for one user (state threaded
through as the code's `self._rate_limits[user_id]` list), returning the
call times that were answered `allowed = true`. -/
def rlAllowedTimes (limit : Int) (window : ℚ) : List ℚ → List ℚ → List ℚ
  | _, [] => []
  | s, now :: rest =>
    let r := check_rate_limit s limit window now
    if r.1.1 then now :: rlAllowedTimes limit window r.2 rest
    else rlAllowedTimes limit window r.2 rest

/-- Number of times in the list lying in the half-open window
`[a, a + W)` — the sliding `W`-second span of claim C2. -/
def winCount (a W : ℚ) (l : List ℚ) : ℕ :=
  l.countP (fun t => decide (a ≤ t) && decide (t < a + W))

/-! ## Task registry (`BotState`, src/bot.py lines 363-445)

`BotState` keeps the primary map `self._downloads : Dict[str, DownloadTask]`
and the per-user index `self._user_downloads : Dict[int, Set[str]]`
(a `defaultdict(set)`).  Only the fields the registry operations touch are
modelled; the `datetime` bookkeeping fields and the nested video-metadata
objects are opaque to every registry operation. -/

/-- Model of `DownloadStatus` (src/config.py lines 69-78). -/
inductive DownloadStatus where
  | pending
  | extracting
  | downloading
  | merging
  | uploading
  | completed
  | failed
  | cancelled
  deriving DecidableEq, Repr

/-- Model of `DownloadTask` (src/bot.py lines 293-313): the mutable per-download
record stored in the registry. -/
structure DownloadTask where
  task_id : String
  user_id : Int
  chat_id : Int
  message_id : Int
  url : String
  status : DownloadStatus := .pending
  progress : ℚ := 0
  downloaded_bytes : Int := 0
  total_bytes : Int := 0
  speed : ℚ := 0
  eta : Int := 0
  file_path : Option String := none
  error_message : String := ""
  cancelled : Bool := false
  deriving DecidableEq, Repr

/-- The registry slice of `BotState` (src/bot.py lines 363-379):
`_downloads` keyed by task ID and `_user_downloads` keyed by user ID. -/
structure BotState where
  downloads : List (String × DownloadTask) := []
  user_downloads : List (Int × List String) := []
  deriving DecidableEq, Repr

/-- Model of `BotState.add_download` (src/bot.py lines 405-410): store the task
under its ID and index the ID under its owner (`defaultdict` semantics:
a missing owner entry starts as the empty set). -/
def add_download (s : BotState) (task : DownloadTask) : BotState :=
  { s with
    downloads := dictSet s.downloads task.task_id task,
    user_downloads := dictSet s.user_downloads task.user_id
      (setAdd (dictGetD s.user_downloads task.user_id []) task.task_id) }

/-- Model of `BotState.get_download` (src/bot.py lines 412-414). -/
def get_download (s : BotState) (task_id : String) : Option DownloadTask :=
  dictGet s.downloads task_id

/-- Model of `BotState.remove_download` (src/bot.py lines 416-422): when the ID is
present, discard it from the owner index and delete it from the primary
map; no-op otherwise. -/
def remove_download (s : BotState) (task_id : String) : BotState :=
  match dictGet s.downloads task_id with
  | none => s
  | some task =>
    { s with
      user_downloads := dictSet s.user_downloads task.user_id
        (setDiscard (dictGetD s.user_downloads task.user_id []) task_id),
      downloads := dictDel s.downloads task_id }

/-- Model of `BotState.get_user_downloads` (src/bot.py lines 428-431): the tasks
whose IDs are indexed under the user and still present in the primary
map. -/
def get_user_downloads (s : BotState) (user_id : Int) : List DownloadTask :=
  (dictGetD s.user_downloads user_id []).filterMap (fun tid => dictGet s.downloads tid)

/-- The loop body of `BotState.cancel_user_downloads`: walk the indexed
IDs, set `cancelled = True` on each task still present, and count. -/
def cancelLoop (task_ids : List String) (downloads : List (String × DownloadTask)) :
    Nat × List (String × DownloadTask) :=
  match task_ids with
  | [] => (0, downloads)
  | tid :: rest =>
    match dictGet downloads tid with
    | some task =>
      let r := cancelLoop rest (dictSet downloads tid { task with cancelled := true })
      (r.1 + 1, r.2)
    | none => cancelLoop rest downloads

/-- Model of `BotState.cancel_user_downloads` (src/bot.py lines 433-442): set
`cancelled = True` on every task of the user still in the primary map and
return how many were cancelled. -/
def cancel_user_downloads (s : BotState) (user_id : Int) : Nat × BotState :=
  let r := cancelLoop (dictGetD s.user_downloads user_id []) s.downloads
  (r.1, { s with downloads := r.2 })

/-- Example task: ID `"x"` owned by user 1. -/
def exTaskA : DownloadTask :=
  { task_id := "x", user_id := 1, chat_id := 10, message_id := 100, url := "urlA" }

/-- Example task: the same ID `"x"`, but owned by user 2. -/
def exTaskB : DownloadTask :=
  { task_id := "x", user_id := 2, chat_id := 20, message_id := 200, url := "urlB" }

/-- Registry holding only `exTaskA`. -/
def exState1 : BotState := add_download {} exTaskA

/-- Registry well-formedness: the two maps have duplicate-free keys, each
indexed set is duplicate-free, every stored task carries the key it is
stored under, every stored task is indexed under its owner, and every
indexed ID is stored with that owner. -/
def RegWF (s : BotState) : Prop :=
  (s.downloads.map Prod.fst).Nodup ∧
  (s.user_downloads.map Prod.fst).Nodup ∧
  (∀ e ∈ s.user_downloads, e.2.Nodup) ∧
  (∀ e ∈ s.downloads, e.2.task_id = e.1 ∧ e.1 ∈ dictGetD s.user_downloads e.2.user_id []) ∧
  (∀ e ∈ s.user_downloads, ∀ tid ∈ e.2,
    (dictGet s.downloads tid).map (fun t => t.user_id) = some e.1)

instance (s : BotState) : Decidable (RegWF s) := by
  unfold RegWF
  infer_instance

end SuperDownloader

open SuperDownloader

/-- C1 (counterexample): the claim purges only the timestamps *strictly
older* than `now - window`, but the code also purges a timestamp exactly
at the cutoff.  With the single recorded timestamp `0`, limit `1`,
window `5`, and a call at time `5`, the code purges the timestamp and
allows the call, while the claimed behaviour keeps it and denies. -/
theorem claim_C1_counterexample :
    check_rate_limit [0] 1 5 5 ≠ rateLimitSpecClaimed [0] 1 5 5 ∧
    check_rate_limit [0] 1 5 5 = ((true, 0), [5]) ∧
    rateLimitSpecClaimed [0] 1 5 5 = ((false, 0), [0]) := by
  refine ⟨?_, ?_, ?_⟩ <;>
    norm_num [check_rate_limit, rateLimitSpecClaimed, Prod.ext_iff]

/-- C1 (amended): `check_rate_limit` first purges all of the user's
recorded timestamps at or before `now - window` (keeping exactly those
strictly newer than the cutoff); if the number of surviving timestamps is
below the limit it appends `now` and returns
`(allowed = true, remaining = limit - count - 1)`, otherwise it returns
`(allowed = false, remaining = 0)` and appends no timestamp. -/
theorem claim_C1_amended (ts : List ℚ) (limit : Int) (window : ℚ) (now : ℚ) :
    check_rate_limit ts limit window now = rateLimitSpecAmended ts limit window now := by
  unfold check_rate_limit rateLimitSpecAmended
  simp only [Int.sub_sub]

/-! ## Association-list and set lemmas -/

namespace SuperDownloader

variable {K V : Type} [DecidableEq K]

lemma dictGet_dictSet_self (m : List (K × V)) (k : K) (v : V) :
    dictGet (dictSet m k v) k = some v := by
  induction m with
  | nil => simp [dictSet, dictGet]
  | cons e rest ih =>
    obtain ⟨k0, v0⟩ := e
    by_cases h : k0 = k
    · simp [dictSet, dictGet, h]
    · simp [dictSet, dictGet, h, ih]

lemma dictGet_dictSet_ne (m : List (K × V)) (k k' : K) (v : V) (h : k' ≠ k) :
    dictGet (dictSet m k v) k' = dictGet m k' := by
  have h' : ¬ (k = k') := fun h2 => h h2.symm
  induction m with
  | nil => simp [dictSet, dictGet, h']
  | cons e rest ih =>
    obtain ⟨k0, v0⟩ := e
    by_cases h1 : k0 = k
    · subst h1
      simp [dictSet, dictGet, h']
    · simp [dictSet, dictGet, h1, ih]

lemma mem_of_dictGet {m : List (K × V)} {k : K} {v : V}
    (h : dictGet m k = some v) : (k, v) ∈ m := by
  induction m with
  | nil => simp [dictGet] at h
  | cons e rest ih =>
    obtain ⟨k0, v0⟩ := e
    by_cases h1 : k0 = k
    · subst h1
      simp [dictGet] at h
      subst h
      exact List.mem_cons_self _ _
    · simp [dictGet, h1] at h
      exact List.mem_cons_of_mem _ (ih h)

lemma dictGet_of_mem_nodup {m : List (K × V)} (hn : (m.map Prod.fst).Nodup)
    {k : K} {v : V} (h : (k, v) ∈ m) : dictGet m k = some v := by
  induction m with
  | nil => simp at h
  | cons e rest ih =>
    obtain ⟨k0, v0⟩ := e
    rw [List.map_cons, List.nodup_cons] at hn
    rcases List.mem_cons.1 h with heq | h2
    · rw [Prod.mk.injEq] at heq
      simp [dictGet, heq.1.symm, heq.2]
    · have hne : k0 ≠ k := by
        intro he
        exact hn.1 (he ▸ List.mem_map.2 ⟨(k, v), h2, rfl⟩)
      simp only [dictGet, hne, if_neg, not_false_iff]
      exact ih hn.2 h2

lemma dictGet_eq_none_iff {m : List (K × V)} {k : K} :
    dictGet m k = none ↔ k ∉ m.map Prod.fst := by
  induction m with
  | nil => simp [dictGet]
  | cons e rest ih =>
    obtain ⟨k0, v0⟩ := e
    by_cases h : k0 = k
    · simp [dictGet, h]
    · have h' : ¬ (k = k0) := fun h2 => h h2.symm
      simp [dictGet, h, ih, h']

lemma dictSet_keys_of_mem {m : List (K × V)} {k : K} (v : V)
    (h : (dictGet m k).isSome) : (dictSet m k v).map Prod.fst = m.map Prod.fst := by
  induction m with
  | nil => simp [dictGet] at h
  | cons e rest ih =>
    obtain ⟨k0, v0⟩ := e
    by_cases h1 : k0 = k
    · simp [dictSet, h1]
    · simp only [dictGet, h1, if_neg, not_false_iff] at h
      simp [dictSet, h1, ih h]

lemma dictSet_keys_of_not_mem {m : List (K × V)} {k : K} (v : V)
    (h : dictGet m k = none) : (dictSet m k v).map Prod.fst = m.map Prod.fst ++ [k] := by
  induction m with
  | nil => simp [dictSet]
  | cons e rest ih =>
    obtain ⟨k0, v0⟩ := e
    by_cases h1 : k0 = k
    · simp [dictGet, h1] at h
    · simp only [dictGet, h1, if_neg, not_false_iff] at h
      simp [dictSet, h1, ih h]

lemma dictDel_sublist (m : List (K × V)) (k : K) : (dictDel m k).Sublist m := by
  induction m with
  | nil => simp [dictDel]
  | cons e rest ih =>
    obtain ⟨k0, v0⟩ := e
    by_cases h : k0 = k
    · simp only [dictDel, h, if_pos]
      exact List.sublist_cons_self _ _
    · simp only [dictDel, h, if_neg, not_false_iff]
      exact ih.cons₂ _

lemma dictGet_dictDel_self {m : List (K × V)} (hn : (m.map Prod.fst).Nodup) (k : K) :
    dictGet (dictDel m k) k = none := by
  induction m with
  | nil => simp [dictDel, dictGet]
  | cons e rest ih =>
    obtain ⟨k0, v0⟩ := e
    rw [List.map_cons, List.nodup_cons] at hn
    by_cases h : k0 = k
    · rw [dictGet_eq_none_iff]
      simp only [dictDel, h, if_pos]
      exact h ▸ hn.1
    · simp [dictDel, dictGet, h, ih hn.2]

lemma dictGet_dictDel_ne (m : List (K × V)) (k k' : K) (h : k' ≠ k) :
    dictGet (dictDel m k) k' = dictGet m k' := by
  induction m with
  | nil => simp [dictDel]
  | cons e rest ih =>
    obtain ⟨k0, v0⟩ := e
    by_cases h1 : k0 = k
    · subst h1
      have h' : ¬ (k0 = k') := fun h2 => h h2.symm
      simp [dictDel, dictGet, h']
    · simp [dictDel, dictGet, h1, ih]

lemma mem_setAdd {A : Type} [DecidableEq A] {s : List A} {x y : A} :
    x ∈ setAdd s y ↔ x ∈ s ∨ x = y := by
  unfold setAdd
  split
  · rename_i hy
    constructor
    · exact Or.inl
    · rintro (h | rfl)
      · exact h
      · exact hy
  · simp

lemma mem_setDiscard {A : Type} [DecidableEq A] {s : List A} {x y : A} :
    x ∈ setDiscard s y ↔ x ∈ s ∧ x ≠ y := by
  simp [setDiscard]

end SuperDownloader

/-- C3 (counterexample): `add_download` does not fail on a colliding live
task ID and does not leave the registry unchanged — there is no
`DuplicateTaskError` anywhere in the code; the second add silently
replaces the stored task. -/
theorem claim_C3_counterexample :
    get_download exState1 "x" = some exTaskA ∧
    add_download exState1 exTaskB ≠ exState1 ∧
    get_download (add_download exState1 exTaskB) "x" = some exTaskB := by
  refine ⟨?_, ?_, ?_⟩ <;> decide

/-- C3 (amended): adding a task whose ID is already live raises no error
and overwrites: afterwards the primary map returns the new task for that
ID and the ID is indexed under the new task's owner (entries indexing the
ID under a previous owner are not cleaned up). -/
theorem claim_C3_amended (s : BotState) (task : DownloadTask) :
    get_download (add_download s task) task.task_id = some task ∧
    task.task_id ∈ dictGetD (add_download s task).user_downloads task.user_id [] := by
  constructor
  · exact dictGet_dictSet_self _ _ _
  · show task.task_id ∈
      dictGetD (dictSet s.user_downloads task.user_id
        (setAdd (dictGetD s.user_downloads task.user_id []) task.task_id)) task.user_id []
    rw [dictGetD, dictGet_dictSet_self]
    exact mem_setAdd.2 (Or.inr rfl)

/-! ## Temporal bound for the rate limiter (claim C2) -/

namespace SuperDownloader

lemma winCount_le_length (a W : ℚ) (l : List ℚ) : winCount a W l ≤ l.length :=
  List.countP_le_length _

lemma winCount_eq_zero_of_all {a W : ℚ} {l : List ℚ}
    (h : ∀ x ∈ l, a + W ≤ x) : winCount a W l = 0 := by
  unfold winCount
  rw [List.countP_eq_zero]
  intro x hx
  simp only [Bool.and_eq_true, decide_eq_true_eq, not_and]
  intro _ hlt
  exact absurd (h x hx) (not_le.mpr hlt)

lemma winCount_filter_of_lt {t a W : ℚ} (h : t < a + W) (s : List ℚ) :
    winCount a W (s.filter (fun x => decide (t - W < x))) = winCount a W s := by
  unfold winCount
  rw [List.countP_filter]
  apply List.countP_congr
  intro x hx
  simp only [Bool.and_eq_true, decide_eq_true_eq]
  constructor
  · rintro ⟨⟨h1, h2⟩, _⟩; exact ⟨h1, h2⟩
  · rintro ⟨h1, h2⟩
    exact ⟨⟨h1, h2⟩, by linarith⟩

lemma rlAllowedTimes_cons (limit : Int) (W : ℚ) (s : List ℚ) (t : ℚ) (rest : List ℚ) :
    rlAllowedTimes limit W s (t :: rest) =
      (if ((s.filter (fun x => decide (t - W < x))).length : Int) < limit then
        t :: rlAllowedTimes limit W (s.filter (fun x => decide (t - W < x)) ++ [t]) rest
      else rlAllowedTimes limit W (s.filter (fun x => decide (t - W < x))) rest) := by
  by_cases h : ((s.filter (fun x => decide (t - W < x))).length : Int) < limit
  · simp [rlAllowedTimes, check_rate_limit, h]
  · simp [rlAllowedTimes, check_rate_limit, h]

lemma mem_rlAllowedTimes {limit : Int} {W : ℚ} :
    ∀ {times s : List ℚ} {x : ℚ}, x ∈ rlAllowedTimes limit W s times → x ∈ times := by
  intro times
  induction times with
  | nil => intro s x h; simp [rlAllowedTimes] at h
  | cons t rest ih =>
    intro s x h
    rw [rlAllowedTimes_cons] at h
    split at h
    · rcases List.mem_cons.1 h with rfl | h2
      · exact List.mem_cons_self _ _
      · exact List.mem_cons_of_mem _ (ih h2)
    · exact List.mem_cons_of_mem _ (ih h)

/-- Key invariant for the sliding-window bound: counting both the surviving
recorded timestamps and the future allowed calls inside one window
`[a, a + W)` never exceeds the limit (or the count already present, when
the start state was over-full). Call times must be nondecreasing and no
earlier than the recorded timestamps. -/
lemma rlAllowed_window_bound (limit : Int) (W a : ℚ) :
    ∀ times s : List ℚ, List.Sorted (· ≤ ·) times →
      (∀ x ∈ s, ∀ u ∈ times, x ≤ u) →
      (winCount a W (rlAllowedTimes limit W s times) : Int) + (winCount a W s : Int) ≤
        max limit (winCount a W s : Int) := by
  intro times
  induction times with
  | nil =>
    intro s _ _
    have h0 : winCount a W (rlAllowedTimes limit W s []) = 0 := rfl
    rw [h0, Nat.cast_zero, zero_add]
    exact le_max_right _ _
  | cons t rest ih =>
    intro s hsort hbd
    obtain ⟨hts, hrest⟩ := List.sorted_cons.1 hsort
    have hmemkept : ∀ x ∈ s.filter (fun x => decide (t - W < x)), x ∈ s :=
      fun x hx => (List.mem_filter.1 hx).1
    have hbd' : ∀ x ∈ s.filter (fun x => decide (t - W < x)), ∀ u ∈ rest, x ≤ u :=
      fun x hx u hu => hbd x (hmemkept x hx) u (List.mem_cons_of_mem _ hu)
    rcases le_or_lt (a + W) t with hcase | hcase
    · -- the call time is at or beyond the end of the window: no allowed call
      -- of this run can land in the window any more
      have hall : ∀ x ∈ rlAllowedTimes limit W s (t :: rest), a + W ≤ x := by
        intro x hx
        rcases List.mem_cons.1 (mem_rlAllowedTimes hx) with rfl | hxr
        · exact hcase
        · exact le_trans hcase (hts x hxr)
      rw [winCount_eq_zero_of_all hall]
      simp
    · -- the call time is before the end of the window: the purge keeps
      -- every recorded timestamp lying in the window
      have hkeq : winCount a W (s.filter (fun x => decide (t - W < x))) = winCount a W s :=
        winCount_filter_of_lt hcase s
      rw [rlAllowedTimes_cons]
      by_cases hallow : ((s.filter (fun x => decide (t - W < x))).length : Int) < limit
      · rw [if_pos hallow]
        have hbdapp : ∀ x ∈ s.filter (fun x => decide (t - W < x)) ++ [t], ∀ u ∈ rest, x ≤ u := by
          intro x hx u hu
          rcases List.mem_append.1 hx with hx1 | hx2
          · exact hbd' x hx1 u hu
          · rcases List.mem_singleton.1 hx2 with rfl
            exact hts u hu
        have ihs := ih (s.filter (fun x => decide (t - W < x)) ++ [t]) hrest hbdapp
        rcases le_or_lt a t with hat | hat
        · -- the call lands inside the window
          have h1 : winCount a W (s.filter (fun x => decide (t - W < x)) ++ [t]) =
              winCount a W s + 1 := by
            unfold winCount at hkeq ⊢
            rw [List.countP_append, hkeq]
            simp [hat, hcase]
          have h2 : winCount a W (t :: rlAllowedTimes limit W
              (s.filter (fun x => decide (t - W < x)) ++ [t]) rest) =
              winCount a W (rlAllowedTimes limit W
                (s.filter (fun x => decide (t - W < x)) ++ [t]) rest) + 1 := by
            unfold winCount
            simp [List.countP_cons, hat, hcase]
          have hcnt : (winCount a W s : Int) < limit := by
            have hle : winCount a W (s.filter (fun x => decide (t - W < x))) ≤
                (s.filter (fun x => decide (t - W < x))).length :=
              winCount_le_length a W _
            rw [hkeq] at hle
            omega
          rw [h1] at ihs
          rw [h2]
          push_cast at ihs ⊢
          omega
        · -- the call lands before the window start
          have h1 : winCount a W (s.filter (fun x => decide (t - W < x)) ++ [t]) =
              winCount a W s := by
            unfold winCount at hkeq ⊢
            rw [List.countP_append, hkeq]
            simp [not_le.mpr hat]
          have h2 : winCount a W (t :: rlAllowedTimes limit W
              (s.filter (fun x => decide (t - W < x)) ++ [t]) rest) =
              winCount a W (rlAllowedTimes limit W
                (s.filter (fun x => decide (t - W < x)) ++ [t]) rest) := by
            unfold winCount
            simp [List.countP_cons, not_le.mpr hat]
          rw [h1] at ihs
          rw [h2]
          exact ihs
      · rw [if_neg hallow]
        have := ih (s.filter (fun x => decide (t - W < x))) hrest hbd'
        rw [hkeq] at this
        exact this

end SuperDownloader

/-- C2 (counterexample): with out-of-order call times the claim fails.
For limit 2 and window 10, the calls at times 0, 1, 11, 2 (in that call
order) are all allowed — the call at time 11 purges the records of the
calls at 0 and 1, letting the call at time 2 through — so three allowed
calls fall within the single 10-second span starting at 0. -/
theorem claim_C2_counterexample :
    rlAllowedTimes 2 10 [] [0, 1, 11, 2] = [0, 1, 11, 2] ∧
    ¬ (winCount 0 10 (rlAllowedTimes 2 10 [] [0, 1, 11, 2]) ≤ 2) := by
  constructor
  · norm_num [rlAllowedTimes, check_rate_limit]
  · norm_num [rlAllowedTimes, check_rate_limit, winCount, List.countP, List.countP.go]

/-- C2 (amended): for every fixed user and every finite sequence of
`check_rate_limit` calls with limit `L ≥ 0` and window `W > 0` made at
*nondecreasing* times, at most `L` of the calls whose call times fall
within any single sliding half-open `W`-second span `[a, a + W)` return
`allowed = true`. -/
theorem claim_C2_amended (limit : Int) (W : ℚ) (times : List ℚ) (a : ℚ)
    (hL : 0 ≤ limit) (hsorted : List.Sorted (· ≤ ·) times) :
    (winCount a W (rlAllowedTimes limit W [] times) : Int) ≤ limit := by
  have h := rlAllowed_window_bound limit W a times [] hsorted (by simp)
  simp only [winCount, List.countP_nil, Nat.cast_zero, add_zero, max_eq_left hL] at h
  exact h

/-- C2 (witness): the amended theorem applied to the concrete run with
limit 1, window 2, call times 0, 1, 5 and span start 0. -/
theorem claim_C2_amended_witness :
    (0 : Int) ≤ 1 ∧ List.Sorted (· ≤ ·) [(0 : ℚ), 1, 5] ∧
    (winCount 0 2 (rlAllowedTimes 1 2 [] [0, 1, 5]) : Int) ≤ 1 :=
  ⟨by norm_num,
   by norm_num [List.sorted_cons],
   claim_C2_amended 1 2 [0, 1, 5] 0 (by norm_num) (by norm_num [List.sorted_cons])⟩

/-! ## Cancellation frame property (claim C4) -/

namespace SuperDownloader

/-- Setting `cancelled := true` twice is the same as setting it once. -/
lemma cancel_idem (t : DownloadTask) :
    ({ { t with cancelled := true } with cancelled := true } : DownloadTask) =
      { t with cancelled := true } := rfl

lemma cancelLoop_lookup :
    ∀ (task_ids : List String) (d : List (String × DownloadTask)) (k : String),
      dictGet (cancelLoop task_ids d).2 k =
        if k ∈ task_ids then (dictGet d k).map (fun t => { t with cancelled := true })
        else dictGet d k := by
  intro task_ids
  induction task_ids with
  | nil => intro d k; simp [cancelLoop]
  | cons tid rest ih =>
    intro d k
    unfold cancelLoop
    cases hdg : dictGet d tid with
    | none =>
      simp only []
      rw [ih]
      by_cases hk : k = tid
      · subst hk
        by_cases hr : k ∈ rest
        · simp [hr]
        · simp [hr, hdg]
      · simp [List.mem_cons, hk]
    | some task =>
      simp only []
      rw [ih]
      by_cases hk : k = tid
      · subst hk
        by_cases hr : k ∈ rest
        · simp [hr, dictGet_dictSet_self, hdg]
        · simp [hr, dictGet_dictSet_self, hdg]
      · rw [dictGet_dictSet_ne _ _ _ _ hk]
        simp [List.mem_cons, hk]
  
lemma cancelLoop_keys :
    ∀ (task_ids : List String) (d : List (String × DownloadTask)),
      ((cancelLoop task_ids d).2).map Prod.fst = d.map Prod.fst := by
  intro task_ids
  induction task_ids with
  | nil => intro d; simp [cancelLoop]
  | cons tid rest ih =>
    intro d
    unfold cancelLoop
    cases hdg : dictGet d tid with
    | none => simpa using ih d
    | some task =>
      simp only []
      rw [ih, dictSet_keys_of_mem _ (by simp [hdg])]

lemma cancelLoop_count :
    ∀ (task_ids : List String) (d : List (String × DownloadTask)),
      (∀ tid ∈ task_ids, (dictGet d tid).isSome) →
      (cancelLoop task_ids d).1 = task_ids.length := by
  intro task_ids
  induction task_ids with
  | nil => intro d _; simp [cancelLoop]
  | cons tid rest ih =>
    intro d hpres
    obtain ⟨task, htask⟩ := Option.isSome_iff_exists.1 (hpres tid (List.mem_cons_self _ _))
    unfold cancelLoop
    rw [htask]
    simp only [List.length_cons]
    rw [ih]
    intro r hr
    by_cases hrt : r = tid
    · subst hrt
      simp [dictGet_dictSet_self]
    · rw [dictGet_dictSet_ne _ _ _ _ hrt]
      exact hpres r (List.mem_cons_of_mem _ hr)

lemma filterMap_dictGet_map {d1 d2 : List (String × DownloadTask)}
    (f : DownloadTask → DownloadTask) :
    ∀ task_ids : List String,
      (∀ tid ∈ task_ids, dictGet d2 tid = (dictGet d1 tid).map f) →
      task_ids.filterMap (fun tid => dictGet d2 tid) =
        (task_ids.filterMap (fun tid => dictGet d1 tid)).map f := by
  intro task_ids
  induction task_ids with
  | nil => intro _; simp
  | cons tid rest ih =>
    intro h
    have h0 := h tid (List.mem_cons_self _ _)
    cases h1 : dictGet d1 tid with
    | none =>
      rw [h1] at h0
      simp only [Option.map_none'] at h0
      simp [List.filterMap_cons, h0, h1,
        ih (fun r hr => h r (List.mem_cons_of_mem _ hr))]
    | some t =>
      rw [h1] at h0
      simp only [Option.map_some'] at h0
      simp [List.filterMap_cons, h0, h1,
        ih (fun r hr => h r (List.mem_cons_of_mem _ hr))]

lemma filterMap_dictGet_congr {d1 d2 : List (String × DownloadTask)} :
    ∀ task_ids : List String,
      (∀ tid ∈ task_ids, dictGet d2 tid = dictGet d1 tid) →
      task_ids.filterMap (fun tid => dictGet d2 tid) =
        task_ids.filterMap (fun tid => dictGet d1 tid) := by
  intro task_ids
  induction task_ids with
  | nil => intro _; simp
  | cons tid rest ih =>
    intro h
    simp [List.filterMap_cons, h tid (List.mem_cons_self _ _),
      ih (fun r hr => h r (List.mem_cons_of_mem _ hr))]

lemma length_filterMap_dictGet {d : List (String × DownloadTask)} :
    ∀ task_ids : List String,
      (∀ tid ∈ task_ids, (dictGet d tid).isSome) →
      (task_ids.filterMap (fun tid => dictGet d tid)).length = task_ids.length := by
  intro task_ids
  induction task_ids with
  | nil => intro _; simp
  | cons tid rest ih =>
    intro h
    obtain ⟨task, htask⟩ := Option.isSome_iff_exists.1 (h tid (List.mem_cons_self _ _))
    simp [List.filterMap_cons, htask, ih (fun r hr => h r (List.mem_cons_of_mem _ hr))]

/-- In a well-formed registry, every ID indexed under a user is stored in
the primary map with that user as owner. -/
lemma regWF_owner {s : BotState} (hwf : RegWF s) (v : Int) :
    ∀ tid ∈ dictGetD s.user_downloads v [],
      (dictGet s.downloads tid).map (fun t => t.user_id) = some v := by
  intro tid htid
  cases hget : dictGet s.user_downloads v with
  | none => rw [dictGetD, hget] at htid; simp at htid
  | some lst =>
    rw [dictGetD, hget] at htid
    simp only [Option.getD_some] at htid
    exact hwf.2.2.2.2 (v, lst) (mem_of_dictGet hget) tid htid

lemma regWF_present {s : BotState} (hwf : RegWF s) (v : Int) :
    ∀ tid ∈ dictGetD s.user_downloads v [], (dictGet s.downloads tid).isSome := by
  intro tid htid
  have h := regWF_owner hwf v tid htid
  cases hget : dictGet s.downloads tid with
  | none => rw [hget] at h; simp at h
  | some t => simp

end SuperDownloader

/-- C4: in a well-formed registry, `cancel_user_downloads u` returns the
number of tasks owned by `u`, removes no task (the primary-map keys are
unchanged), leaves `get_user_downloads u` returning the same tasks each
with `cancelled = true`, marks every task owned by `u` cancelled, and
leaves the downloads of every other user untouched. -/
theorem claim_C4 (s : BotState) (u : Int) (hwf : RegWF s) :
    (cancel_user_downloads s u).1 = (get_user_downloads s u).length ∧
    ((cancel_user_downloads s u).2).downloads.map Prod.fst = s.downloads.map Prod.fst ∧
    get_user_downloads ((cancel_user_downloads s u).2) u =
      (get_user_downloads s u).map (fun t => { t with cancelled := true }) ∧
    (∀ e ∈ ((cancel_user_downloads s u).2).downloads,
      e.2.user_id = u → e.2.cancelled = true) ∧
    (∀ v : Int, v ≠ u →
      get_user_downloads ((cancel_user_downloads s u).2) v = get_user_downloads s v) := by
  have hpres := regWF_present hwf u
  refine ⟨?_, ?_, ?_, ?_, ?_⟩
  · show (cancelLoop (dictGetD s.user_downloads u []) s.downloads).1 = _
    rw [cancelLoop_count _ _ hpres]
    unfold get_user_downloads
    rw [length_filterMap_dictGet _ hpres]
  · exact cancelLoop_keys _ _
  · show (dictGetD s.user_downloads u []).filterMap
        (fun tid => dictGet (cancelLoop (dictGetD s.user_downloads u []) s.downloads).2 tid) = _
    apply filterMap_dictGet_map
    intro tid htid
    rw [cancelLoop_lookup, if_pos htid]
  · intro e he hu
    have hkeys : (((cancel_user_downloads s u).2).downloads.map Prod.fst).Nodup := by
      show (((cancelLoop (dictGetD s.user_downloads u []) s.downloads).2).map Prod.fst).Nodup
      rw [cancelLoop_keys]
      exact hwf.1
    have hget : dictGet ((cancel_user_downloads s u).2).downloads e.1 = some e.2 := by
      apply dictGet_of_mem_nodup hkeys
      exact (Prod.mk.eta ▸ he)
    rw [show ((cancel_user_downloads s u).2).downloads =
        (cancelLoop (dictGetD s.user_downloads u []) s.downloads).2 from rfl,
      cancelLoop_lookup] at hget
    by_cases htid : e.1 ∈ dictGetD s.user_downloads u []
    · rw [if_pos htid] at hget
      obtain ⟨t0, _, ht0⟩ := Option.map_eq_some'.1 hget
      rw [← ht0]
    · rw [if_neg htid] at hget
      exfalso
      apply htid
      have hmem : (e.1, e.2) ∈ s.downloads := mem_of_dictGet hget
      have h4 := hwf.2.2.2.1 (e.1, e.2) hmem
      rw [show (e.1, e.2).2 = e.2 from rfl] at h4
      rw [hu] at h4
      exact h4.2
  · intro v hv
    show (dictGetD s.user_downloads v []).filterMap
        (fun tid => dictGet (cancelLoop (dictGetD s.user_downloads u []) s.downloads).2 tid) = _
    apply filterMap_dictGet_congr
    intro tid htid
    rw [cancelLoop_lookup]
    have htnot : tid ∉ dictGetD s.user_downloads u [] := by
      intro htu
      have h1 := regWF_owner hwf v tid htid
      have h2 := regWF_owner hwf u tid htu
      rw [h1] at h2
      exact hv (Option.some.inj h2)
    rw [if_neg htnot]

namespace SuperDownloader

/-- Example registry with two users: user 1 owns tasks `"a"`, `"b"`,
user 2 owns task `"c"`. -/
def exTask1 : DownloadTask :=
  { task_id := "a", user_id := 1, chat_id := 1, message_id := 1, url := "u1" }

def exTask2 : DownloadTask :=
  { task_id := "b", user_id := 1, chat_id := 2, message_id := 2, url := "u2" }

def exTask3 : DownloadTask :=
  { task_id := "c", user_id := 2, chat_id := 3, message_id := 3, url := "u3" }

def exRegState : BotState :=
  { downloads := [("a", exTask1), ("b", exTask2), ("c", exTask3)],
    user_downloads := [(1, ["a", "b"]), (2, ["c"])] }

end SuperDownloader

/-- C4 (witness): the cancellation frame property applied to the concrete
two-user registry, cancelling user 1's downloads. -/
theorem claim_C4_witness :
    RegWF exRegState ∧
    ((cancel_user_downloads exRegState 1).1 = (get_user_downloads exRegState 1).length ∧
    ((cancel_user_downloads exRegState 1).2).downloads.map Prod.fst =
      exRegState.downloads.map Prod.fst ∧
    get_user_downloads ((cancel_user_downloads exRegState 1).2) 1 =
      (get_user_downloads exRegState 1).map (fun t => { t with cancelled := true }) ∧
    (∀ e ∈ ((cancel_user_downloads exRegState 1).2).downloads,
      e.2.user_id = 1 → e.2.cancelled = true) ∧
    (∀ v : Int, v ≠ 1 →
      get_user_downloads ((cancel_user_downloads exRegState 1).2) v =
        get_user_downloads exRegState v)) :=
  ⟨by decide, claim_C4 exRegState 1 (by decide)⟩

/-! ## Registry index consistency (claims C3 and C10) -/

namespace SuperDownloader

/-- The three mutating registry operations of claim C10. -/
inductive RegOp where
  | addTask (t : DownloadTask)
  | removeTask (task_id : String)
  | cancelAll (user_id : Int)

/-- Apply one registry operation (the returned count of `cancelAll` is
discarded, as claim C10 concerns only the state). -/
def applyOp (s : BotState) : RegOp → BotState
  | .addTask t => add_download s t
  | .removeTask tid => remove_download s tid
  | .cancelAll uid => (cancel_user_downloads s uid).2

/-- Run a sequence of registry operations. -/
def runOps (s : BotState) (ops : List RegOp) : BotState :=
  ops.foldl applyOp s

/-- Check that every `addTask` in the sequence is applied in a state where
its task ID is not currently live. -/
def freshRun : BotState → List RegOp → Bool
  | _, [] => true
  | s, op :: rest =>
    (match op with
     | RegOp.addTask t => !(dictMem s.downloads t.task_id)
     | _ => true) && freshRun (applyOp s op) rest

/-- The two-way index consistency of claim C10: a task ID is stored with
owner `uid` exactly when it is indexed under `uid`. -/
def IndexConsistent (s : BotState) : Prop :=
  ∀ (tid : String) (uid : Int),
    (dictGet s.downloads tid).map (fun t => t.user_id) = some uid ↔
      tid ∈ dictGetD s.user_downloads uid []

/-- The inductive invariant: duplicate-free primary keys together with
index consistency. -/
def RegInv (s : BotState) : Prop :=
  (s.downloads.map Prod.fst).Nodup ∧ IndexConsistent s

lemma regInv_empty : RegInv {} := by
  constructor
  · simp
  · intro tid uid
    simp [dictGet, dictGetD]

lemma regInv_add {s : BotState} (h : RegInv s) {t : DownloadTask}
    (hfresh : dictGet s.downloads t.task_id = none) : RegInv (add_download s t) := by
  obtain ⟨hnd, hic⟩ := h
  constructor
  · show ((dictSet s.downloads t.task_id t).map Prod.fst).Nodup
    rw [dictSet_keys_of_not_mem _ hfresh, List.nodup_append]
    refine ⟨hnd, List.nodup_singleton _, ?_⟩
    simp only [List.disjoint_singleton]
    exact dictGet_eq_none_iff.1 hfresh
  · intro tid uid
    show (dictGet (dictSet s.downloads t.task_id t) tid).map (fun x => x.user_id) = some uid ↔
      tid ∈ dictGetD (dictSet s.user_downloads t.user_id
        (setAdd (dictGetD s.user_downloads t.user_id []) t.task_id)) uid []
    by_cases htid : tid = t.task_id
    · subst htid
      rw [dictGet_dictSet_self]
      by_cases huid : uid = t.user_id
      · subst huid
        rw [dictGetD, dictGet_dictSet_self]
        simp [mem_setAdd]
      · rw [dictGetD, dictGet_dictSet_ne _ _ _ _ huid]
        constructor
        · intro hmap
          exact absurd (Option.some.inj hmap).symm huid
        · intro hmem
          have hold := (hic t.task_id uid).2 hmem
          rw [hfresh] at hold
          simp at hold
    · rw [dictGet_dictSet_ne _ _ _ _ htid]
      by_cases huid : uid = t.user_id
      · subst huid
        rw [dictGetD, dictGet_dictSet_self]
        simp only [Option.getD_some]
        rw [mem_setAdd]
        constructor
        · intro hmap
          exact Or.inl ((hic tid t.user_id).1 hmap)
        · rintro (hmem | heq)
          · exact (hic tid t.user_id).2 hmem
          · exact absurd heq htid
      · rw [dictGetD, dictGet_dictSet_ne _ _ _ _ huid]
        exact hic tid uid

lemma regInv_remove {s : BotState} (h : RegInv s) (tid0 : String) :
    RegInv (remove_download s tid0) := by
  obtain ⟨hnd, hic⟩ := h
  unfold remove_download
  cases hget : dictGet s.downloads tid0 with
  | none => exact ⟨hnd, hic⟩
  | some task =>
    constructor
    · show (((dictDel s.downloads tid0)).map Prod.fst).Nodup
      exact hnd.sublist ((dictDel_sublist _ _).map _)
    · intro tid uid
      show (dictGet (dictDel s.downloads tid0) tid).map (fun x => x.user_id) = some uid ↔
        tid ∈ dictGetD (dictSet s.user_downloads task.user_id
          (setDiscard (dictGetD s.user_downloads task.user_id []) tid0)) uid []
      by_cases htid : tid = tid0
      · subst htid
        rw [dictGet_dictDel_self hnd]
        simp only [Option.map_none']
        constructor
        · intro hmap; simp at hmap
        · intro hmem
          exfalso
          by_cases huid : uid = task.user_id
          · subst huid
            rw [dictGetD, dictGet_dictSet_self] at hmem
            simp only [Option.getD_some] at hmem
            exact (mem_setDiscard.1 hmem).2 rfl
          · rw [dictGetD, dictGet_dictSet_ne _ _ _ _ huid] at hmem
            have := (hic tid uid).2 hmem
            rw [hget] at this
            simp only [Option.map_some', Option.some.injEq] at this
            exact huid this.symm
      · rw [dictGet_dictDel_ne _ _ _ htid]
        by_cases huid : uid = task.user_id
        · subst huid
          rw [dictGetD, dictGet_dictSet_self]
          simp only [Option.getD_some]
          rw [mem_setDiscard]
          constructor
          · intro hmap
            exact ⟨(hic tid task.user_id).1 hmap, htid⟩
          · rintro ⟨hmem, _⟩
            exact (hic tid task.user_id).2 hmem
        · rw [dictGetD, dictGet_dictSet_ne _ _ _ _ huid]
          exact hic tid uid

lemma regInv_cancel {s : BotState} (h : RegInv s) (u : Int) :
    RegInv ((cancel_user_downloads s u).2) := by
  obtain ⟨hnd, hic⟩ := h
  constructor
  · show (((cancelLoop (dictGetD s.user_downloads u []) s.downloads).2).map Prod.fst).Nodup
    rw [cancelLoop_keys]
    exact hnd
  · intro tid uid
    show (dictGet (cancelLoop (dictGetD s.user_downloads u []) s.downloads).2 tid).map
        (fun x => x.user_id) = some uid ↔ tid ∈ dictGetD s.user_downloads uid []
    rw [cancelLoop_lookup]
    by_cases htid : tid ∈ dictGetD s.user_downloads u []
    · rw [if_pos htid, Option.map_map]
      exact hic tid uid
    · rw [if_neg htid]
      exact hic tid uid

lemma regInv_run : ∀ (ops : List RegOp) (s : BotState),
    RegInv s → freshRun s ops = true → RegInv (runOps s ops) := by
  intro ops
  induction ops with
  | nil => intro s h _; exact h
  | cons op rest ih =>
    intro s h hfresh
    unfold freshRun at hfresh
    rw [Bool.and_eq_true] at hfresh
    have hstep : RegInv (applyOp s op) := by
      cases op with
      | addTask t =>
        apply regInv_add h
        have : dictMem s.downloads t.task_id = false := by
          have := hfresh.1
          simp only [Bool.not_eq_true'] at this
          exact this
        unfold dictMem at this
        cases hx : dictGet s.downloads t.task_id with
        | none => rfl
        | some v => rw [hx] at this; simp at this
      | removeTask tid => exact regInv_remove h tid
      | cancelAll uid => exact regInv_cancel h uid
    exact ih (applyOp s op) hstep hfresh.2

/-- The reachable state of the C10 counterexample: two `addTask` calls
with the same task ID `"x"` but different owners. -/
def exDupState : BotState :=
  runOps {} [RegOp.addTask exTaskA, RegOp.addTask exTaskB]

/-- A fresh-ID operation sequence for the C10 witness: two adds with
distinct IDs, a removal, and a cancellation. -/
def exOps : List RegOp :=
  [RegOp.addTask exTask1, RegOp.addTask exTask3,
   RegOp.removeTask "a", RegOp.cancelAll 2]

end SuperDownloader

/-- C10 (counterexample): the two-way index consistency fails on a
reachable state.  Adding task `"x"` for user 1 and then task `"x"` for
user 2 (which `add_download` silently permits, see C3) leaves `"x"`
indexed under user 1 while the stored task is owned by user 2. -/
theorem claim_C10_counterexample : ¬ IndexConsistent exDupState := by
  intro h
  have h1 := (h "x" 1).2 (show "x" ∈ dictGetD exDupState.user_downloads 1 [] by decide)
  have h2 : (dictGet exDupState.downloads "x").map (fun t => t.user_id) = some 2 := by decide
  rw [h1] at h2
  exact absurd h2 (by decide)

/-- C10 (amended): for every sequence of registry operations starting from
the empty registry in which each `addTask` is applied with a task ID that
is not currently live, the resulting state is index-consistent: a task ID
is stored with owner `u` exactly when it is a member of user `u`'s index
set.  (`add_download` inserts into both structures, `remove_download`
deletes from both, and cancellation changes membership of neither.) -/
theorem claim_C10_amended (ops : List RegOp) (h : freshRun {} ops = true) :
    IndexConsistent (runOps {} ops) :=
  (regInv_run ops {} regInv_empty h).2

/-- C10 (witness): the amended consistency theorem applied to a concrete
fresh-ID sequence of an add, another add, a removal and a cancellation. -/
theorem claim_C10_amended_witness :
    freshRun {} exOps = true ∧ IndexConsistent (runOps {} exOps) :=
  ⟨by decide, claim_C10_amended exOps (by decide)⟩

/-! ## TTL cache (`BotState.get_cached` / `set_cached`, src/bot.py
lines 448-460)

`self._cache` maps a string key to a `(value, timestamp)` pair.  The value
type is `Any` in the code, so the model is generic in it. -/

namespace SuperDownloader

/-- Model of `BotState.get_cached` (src/bot.py lines 448-455): return the value if
its age is below `ttl`, else evict the entry and report absence.  Returns
the result together with the cache as the method leaves it. -/
def get_cached {A : Type} (cache : List (String × (A × ℚ))) (key : String)
    (ttl : Int) (now : ℚ) : Option A × List (String × (A × ℚ)) :=
  match dictGet cache key with
  | some (value, timestamp) =>
    if now - timestamp < (ttl : ℚ) then (some value, cache)
    else (none, dictDel cache key)
  | none => (none, cache)

/-- Model of `BotState.set_cached` (src/bot.py lines 457-460): store the value with
the current timestamp. -/
def set_cached {A : Type} (cache : List (String × (A × ℚ))) (key : String)
    (value : A) (now : ℚ) : List (String × (A × ℚ)) :=
  dictSet cache key (value, now)

end SuperDownloader

/-- C5: after `set_cached k v` at time `s`, a `get_cached k ttl` at time
`r` returns `v` and leaves the cache untouched when `r - s < ttl`, and
returns absence while evicting the entry when `r - s ≥ ttl`; a later write
to a *different* key does not disturb the first outcome. -/
theorem claim_C5 {A : Type} (cache : List (String × (A × ℚ))) (key : String)
    (v : A) (s r : ℚ) (ttl : Int) :
    (r - s < (ttl : ℚ) →
      get_cached (set_cached cache key v s) key ttl r =
        (some v, set_cached cache key v s)) ∧
    ((ttl : ℚ) ≤ r - s →
      get_cached (set_cached cache key v s) key ttl r =
        (none, dictDel (set_cached cache key v s) key)) ∧
    (∀ (key2 : String) (v2 : A) (s2 : ℚ), key2 ≠ key → r - s < (ttl : ℚ) →
      (get_cached (set_cached (set_cached cache key v s) key2 v2 s2) key ttl r).1 =
        some v) := by
  refine ⟨?_, ?_, ?_⟩
  · intro h
    unfold get_cached set_cached
    rw [dictGet_dictSet_self]
    dsimp only
    rw [if_pos h]
  · intro h
    unfold get_cached set_cached
    rw [dictGet_dictSet_self]
    dsimp only
    rw [if_neg (not_lt.2 h)]
  · intro key2 v2 s2 hne h
    unfold get_cached set_cached
    rw [dictGet_dictSet_ne _ _ _ _ (fun h2 => hne h2.symm), dictGet_dictSet_self]
    dsimp only
    rw [if_pos h]

/-- C5 (witness): cache the value 7 under `"k"` at time 0 with ttl 3; a
read at time 2 hits, a read at time 3 misses and evicts, and a write to
`"other"` in between does not disturb the hit. -/
theorem claim_C5_witness :
    ((2 : ℚ) - 0 < ((3 : Int) : ℚ) ∧
      get_cached (set_cached ([] : List (String × (Int × ℚ))) "k" 7 0) "k" 3 2 =
        (some 7, set_cached ([] : List (String × (Int × ℚ))) "k" 7 0)) ∧
    (((3 : Int) : ℚ) ≤ (3 : ℚ) - 0 ∧
      get_cached (set_cached ([] : List (String × (Int × ℚ))) "k" 7 0) "k" 3 3 =
        (none, dictDel (set_cached ([] : List (String × (Int × ℚ))) "k" 7 0) "k")) ∧
    (get_cached (set_cached (set_cached ([] : List (String × (Int × ℚ))) "k" 7 0)
        "other" 9 1) "k" 3 2).1 = some 7 :=
  ⟨⟨by norm_num, (claim_C5 [] "k" 7 0 2 3).1 (by norm_num)⟩,
   ⟨by norm_num, (claim_C5 [] "k" 7 0 3 3).2.1 (by norm_num)⟩,
   (claim_C5 [] "k" 7 0 2 3).2.2 "other" 9 1 (by decide) (by norm_num)⟩

/-! ## Progress tracker (`ProgressTracker`, src/bot.py lines 968-1126)

The tracker's mutable state is the snapshot of progress fields, the text
of the last successful edit (`_last_text`), and the wall-clock time of the
last successful edit (`_last_update`).

Two external collaborators are abstracted, following spec section 1:
the chat client's `edit_message_text` is modelled as the `Option String`
edit emitted by `update` (the success path; the `FloodWait` /
`MessageNotModified` exception handlers concern the external sink), and
the localization helpers behind `_format_progress_message` are modelled
as a parameter `fmt` rendering the snapshot — `_format_progress_message`
reads exactly the snapshot fields and the language code, so it is a pure
function of the snapshot record. -/

namespace SuperDownloader

/-- Constant `PROGRESS_UPDATE_INTERVAL` (src/config.py line 126). -/
def PROGRESS_UPDATE_INTERVAL : ℚ := 2

/-- The progress-data fields of `ProgressTracker` (src/bot.py
lines 988-996) together with the language code the formatter reads. -/
structure TrackerSnap where
  status : DownloadStatus := .pending
  progress : ℚ := 0
  downloaded_bytes : Int := 0
  total_bytes : Int := 0
  speed : ℚ := 0
  eta : Int := 0
  quality : String := ""
  filename : String := ""
  lang_code : String := "en"
  deriving DecidableEq, Repr

/-- Model of `ProgressTracker` (src/bot.py lines 968-996). -/
structure ProgressTracker where
  chat_id : Int
  message_id : Int
  task_id : String
  last_update : ℚ := 0
  update_interval : ℚ := PROGRESS_UPDATE_INTERVAL
  last_text : String := ""
  snap : TrackerSnap := {}
  deriving DecidableEq, Repr

/-- The optional keyword arguments of `ProgressTracker.update`
(src/bot.py lines 1044-1053). -/
structure UpdateArgs where
  status : Option DownloadStatus := none
  progress : Option ℚ := none
  downloaded_bytes : Option Int := none
  total_bytes : Option Int := none
  speed : Option ℚ := none
  eta : Option Int := none
  force : Bool := false
  deriving DecidableEq, Repr

/-- The merge step of `ProgressTracker.update` (src/bot.py
lines 1068-1080): every provided field overwrites the snapshot, every
omitted field is left unchanged. -/
def mergeSnap (sn : TrackerSnap) (a : UpdateArgs) : TrackerSnap :=
  { sn with
    status := a.status.getD sn.status,
    progress := a.progress.getD sn.progress,
    downloaded_bytes := a.downloaded_bytes.getD sn.downloaded_bytes,
    total_bytes := a.total_bytes.getD sn.total_bytes,
    speed := a.speed.getD sn.speed,
    eta := a.eta.getD sn.eta }

/-- Model of `ProgressTracker.update` (src/bot.py lines 1044-1110): merge the
provided fields, return early (no edit) when not forced and within the
debounce interval, skip when the rendered text equals the last sent text,
otherwise edit and record the new text and edit time.  Returns the new
tracker state and the text of the issued edit, if any. -/
def ProgressTracker.update (fmt : TrackerSnap → String) (tr : ProgressTracker)
    (a : UpdateArgs) (now : ℚ) : ProgressTracker × Option String :=
  let tr1 := { tr with snap := mergeSnap tr.snap a }
  if a.force = false ∧ now - tr1.last_update < tr1.update_interval then (tr1, none)
  else
    let new_text := fmt tr1.snap
    if new_text = tr1.last_text then (tr1, none)
    else ({ tr1 with last_text := new_text, last_update := now }, some new_text)

/-- Model of `ProgressTracker.complete` (src/bot.py lines 1116-1126): edit the
message to exactly the given text, with no debounce check, no comparison
against the last sent text, no snapshot merge, and no update of the
`_last_text` / `_last_update` markers. -/
def ProgressTracker.complete (tr : ProgressTracker) (text : String) :
    ProgressTracker × String :=
  (tr, text)

/-- Example rendering function for the tracker witnesses. -/
def exFmt : TrackerSnap → String :=
  fun sn => if sn.progress < 100 then "working" else "done"

/-- Example tracker: fresh state, debounce interval 2, no text sent yet. -/
def exTracker : ProgressTracker :=
  { chat_id := 1, message_id := 2, task_id := "t1" }

lemma update_snap (fmt : TrackerSnap → String) (tr : ProgressTracker)
    (a : UpdateArgs) (now : ℚ) :
    (ProgressTracker.update fmt tr a now).1.snap = mergeSnap tr.snap a := by
  unfold ProgressTracker.update
  dsimp only
  split
  · rfl
  · split
    · rfl
    · rfl

lemma update_debounce (fmt : TrackerSnap → String) (tr : ProgressTracker)
    (a : UpdateArgs) (now : ℚ) (hf : a.force = false)
    (ht : now - tr.last_update < tr.update_interval) :
    (ProgressTracker.update fmt tr a now).2 = none := by
  unfold ProgressTracker.update
  rw [if_pos ⟨hf, ht⟩]

lemma update_edit_text (fmt : TrackerSnap → String) (tr : ProgressTracker)
    (a : UpdateArgs) (now : ℚ) (txt : String)
    (h : (ProgressTracker.update fmt tr a now).2 = some txt) :
    txt = fmt (mergeSnap tr.snap a) := by
  unfold ProgressTracker.update at h
  dsimp only at h
  split at h
  · simp at h
  · split at h
    · simp at h
    · exact (Option.some.inj h).symm

lemma update_skip_same (fmt : TrackerSnap → String) (tr : ProgressTracker)
    (a : UpdateArgs) (now : ℚ) (h : fmt (mergeSnap tr.snap a) = tr.last_text) :
    (ProgressTracker.update fmt tr a now).2 = none := by
  by_cases hf : a.force = false ∧ now - tr.last_update < tr.update_interval
  · exact update_debounce fmt tr a now hf.1 hf.2
  · unfold ProgressTracker.update
    dsimp only
    rw [if_neg hf, if_pos h]

lemma update_sets_last_text (fmt : TrackerSnap → String) (tr : ProgressTracker)
    (a : UpdateArgs) (now : ℚ) (txt : String)
    (h : (ProgressTracker.update fmt tr a now).2 = some txt) :
    (ProgressTracker.update fmt tr a now).1.last_text = txt := by
  unfold ProgressTracker.update at h ⊢
  dsimp only at h ⊢
  split at h
  · simp at h
  · split at h
    · simp at h
    · rename_i h1 h2
      rw [if_neg h1, if_neg h2]
      exact Option.some.inj h

end SuperDownloader

/-- C6: for every rendering function, tracker state and `update` call,
the provided fields are merged into the snapshot unconditionally (omitted
fields unchanged); if `force` is false and less than the update interval
has elapsed since the last actual edit, no edit is issued; any issued
edit is rendered from the fully merged snapshot; and an edit issued by a
subsequent call (for instance a final forced one) is rendered from the
twice-merged latest snapshot, never a stale intermediate one. -/
theorem claim_C6 (fmt : TrackerSnap → String) (tr : ProgressTracker)
    (a : UpdateArgs) (now : ℚ) :
    (ProgressTracker.update fmt tr a now).1.snap = mergeSnap tr.snap a ∧
    (a.force = false → now - tr.last_update < tr.update_interval →
      (ProgressTracker.update fmt tr a now).2 = none) ∧
    (∀ txt, (ProgressTracker.update fmt tr a now).2 = some txt →
      txt = fmt (mergeSnap tr.snap a)) ∧
    (∀ (a2 : UpdateArgs) (now2 : ℚ) (txt2 : String),
      (ProgressTracker.update fmt (ProgressTracker.update fmt tr a now).1 a2 now2).2 =
        some txt2 →
      txt2 = fmt (mergeSnap (mergeSnap tr.snap a) a2)) := by
  refine ⟨update_snap fmt tr a now, update_debounce fmt tr a now, ?_, ?_⟩
  · intro txt h
    exact update_edit_text fmt tr a now txt h
  · intro a2 now2 txt2 h
    rw [update_edit_text fmt _ a2 now2 txt2 h, update_snap]

/-- C6 (witness): with the concrete renderer and fresh tracker, an
unforced call 1 second after the last edit (interval 2) merges but issues
no edit. -/
theorem claim_C6_witness :
    ({} : UpdateArgs).force = false ∧
    (1 : ℚ) - exTracker.last_update < exTracker.update_interval ∧
    (ProgressTracker.update exFmt exTracker {} 1).2 = none :=
  ⟨rfl, by norm_num [exTracker, PROGRESS_UPDATE_INTERVAL],
   (claim_C6 exFmt exTracker {} 1).2.1 rfl
     (by norm_num [exTracker, PROGRESS_UPDATE_INTERVAL])⟩

/-- C7: an `update` call whose candidate display text equals the last
sent text issues no edit, even when `force` is true (the statement places
no condition on `a.force`); consequently, when a call issues an edit, a
second call whose resulting display text is identical issues none. -/
theorem claim_C7 (fmt : TrackerSnap → String) (tr : ProgressTracker)
    (a : UpdateArgs) (now : ℚ) :
    (fmt (mergeSnap tr.snap a) = tr.last_text →
      (ProgressTracker.update fmt tr a now).2 = none) ∧
    (∀ (a2 : UpdateArgs) (now2 : ℚ) (txt : String),
      (ProgressTracker.update fmt tr a now).2 = some txt →
      fmt (mergeSnap (mergeSnap tr.snap a) a2) = txt →
      (ProgressTracker.update fmt (ProgressTracker.update fmt tr a now).1 a2 now2).2 =
        none) := by
  constructor
  · intro h
    exact update_skip_same fmt tr a now h
  · intro a2 now2 txt h1 h2
    apply update_skip_same
    rw [update_snap, update_sets_last_text fmt tr a now txt h1, h2]

/-- C7 (witness): a forced first call edits to `"working"`; a second call
rendering the same text issues no edit. -/
theorem claim_C7_witness :
    (ProgressTracker.update exFmt exTracker { force := true } 10).2 = some "working" ∧
    (ProgressTracker.update exFmt
      (ProgressTracker.update exFmt exTracker { force := true } 10).1 {} 11).2 = none := by
  have h1 : (ProgressTracker.update exFmt exTracker { force := true } 10).2 =
      some "working" := by
    norm_num [ProgressTracker.update, mergeSnap, exFmt, exTracker]
    decide
  exact ⟨h1,
    (claim_C7 exFmt exTracker { force := true } 10).2 {} 11 "working" h1
      (by norm_num [mergeSnap, exFmt, exTracker])⟩

/-- C9: `complete` unconditionally issues an edit with exactly the given
text — no debounce check, no comparison with the last sent text, no
snapshot merge, and no change to the tracker state at all — so calling it
twice sends the literal text twice. -/
theorem claim_C9 (tr : ProgressTracker) (text : String) :
    (ProgressTracker.complete tr text).2 = text ∧
    (ProgressTracker.complete tr text).1 = tr ∧
    (ProgressTracker.complete (ProgressTracker.complete tr text).1 text).2 = text :=
  ⟨rfl, rfl, rfl⟩

/-! ## yt-dlp progress-hook adapter (`YTDLPProgressHook.__call__`,
src/bot.py lines 1139-1181)

The raw event is the dictionary yt-dlp passes to the hook; a key that is
absent or holds `None` is modelled as `none` (the code's `d.get(k, 0)`
defaults and `or`-coalescing collapse the two the same way).  The
cross-thread `asyncio.run_coroutine_threadsafe(tracker.update(...))`
call is modelled as the scheduled `UpdateArgs`; the `error` branch only
logs and schedules nothing. -/

namespace SuperDownloader

/-- The fields of the raw yt-dlp progress event read by the hook. -/
structure HookDict where
  status : Option String := none
  downloaded_bytes : Option Int := none
  total_bytes : Option Int := none
  total_bytes_estimate : Option Int := none
  speed : Option ℚ := none
  eta : Option Int := none
  error : Option String := none
  deriving DecidableEq, Repr

/-- What one hook invocation does: schedule a tracker update, only log,
or nothing (unrecognized status). -/
inductive HookAction where
  | scheduleUpdate (args : UpdateArgs)
  | logErrorOnly
  | ignored
  deriving DecidableEq, Repr

/-- Python `x or y` on an optional integer: `None` and `0` are falsy. -/
def pyOrInt (x : Option Int) (y : Int) : Int :=
  match x with
  | some v => if v = 0 then y else v
  | none => y

/-- Model of `YTDLPProgressHook.__call__` (src/bot.py lines 1139-1181). -/
def progressHook (d : HookDict) : HookAction :=
  if d.status = some "downloading" then
    let downloaded := d.downloaded_bytes.getD 0
    let total := pyOrInt d.total_bytes (d.total_bytes_estimate.getD 0)
    let speed := d.speed.getD 0
    let eta := d.eta.getD 0
    let progress : ℚ := if 0 < total then ((downloaded : ℚ) / (total : ℚ)) * 100 else 0
    HookAction.scheduleUpdate
      { status := some .downloading, progress := some progress,
        downloaded_bytes := some downloaded, total_bytes := some total,
        speed := some speed, eta := some eta, force := false }
  else if d.status = some "finished" then
    HookAction.scheduleUpdate
      { status := some .merging, progress := some 100, force := true }
  else if d.status = some "error" then HookAction.logErrorOnly
  else HookAction.ignored

/-- Example raw event of a mid-download progress callback. -/
def exHookDownloading : HookDict :=
  { status := some "downloading", downloaded_bytes := some 50,
    total_bytes := some 200, speed := some 1024, eta := some 10 }

/-- Example raw event signalling raw-download completion. -/
def exHookFinished : HookDict := { status := some "finished" }

/-- Example raw error event. -/
def exHookErrorEvt : HookDict := { status := some "error", error := some "boom" }

end SuperDownloader

/-- C8: a `"downloading"` event schedules a tracker update with status
`downloading`, progress `downloaded/total*100` when `total > 0` and `0`
otherwise, passing downloaded, total, speed and eta through; a
`"finished"` event schedules `update(status=merging, progress=100,
force=true)`; an `"error"` event only logs and schedules no update. -/
theorem claim_C8 (d : HookDict) :
    (d.status = some "downloading" →
      progressHook d = HookAction.scheduleUpdate
        { status := some DownloadStatus.downloading,
          progress := some (if 0 < pyOrInt d.total_bytes (d.total_bytes_estimate.getD 0)
            then ((d.downloaded_bytes.getD 0 : ℚ) /
              ((pyOrInt d.total_bytes (d.total_bytes_estimate.getD 0) : Int) : ℚ)) * 100
            else 0),
          downloaded_bytes := some (d.downloaded_bytes.getD 0),
          total_bytes := some (pyOrInt d.total_bytes (d.total_bytes_estimate.getD 0)),
          speed := some (d.speed.getD 0), eta := some (d.eta.getD 0),
          force := false }) ∧
    (d.status = some "finished" →
      progressHook d = HookAction.scheduleUpdate
        { status := some DownloadStatus.merging, progress := some 100,
          force := true }) ∧
    (d.status = some "error" → progressHook d = HookAction.logErrorOnly) := by
  refine ⟨?_, ?_, ?_⟩
  · intro h
    unfold progressHook
    rw [if_pos h]
  · intro h
    unfold progressHook
    rw [if_neg (by rw [h]; decide), if_pos h]
  · intro h
    unfold progressHook
    rw [if_neg (by rw [h]; decide), if_neg (by rw [h]; decide), if_pos h]

/-- C8 (witness): the three branch theorems applied to concrete events; a
half-done 200-byte download reports 25 percent. -/
theorem claim_C8_witness :
    progressHook exHookDownloading = HookAction.scheduleUpdate
      { status := some DownloadStatus.downloading, progress := some 25,
        downloaded_bytes := some 50, total_bytes := some 200,
        speed := some 1024, eta := some 10, force := false } ∧
    progressHook exHookFinished = HookAction.scheduleUpdate
      { status := some DownloadStatus.merging, progress := some 100,
        force := true } ∧
    progressHook exHookErrorEvt = HookAction.logErrorOnly := by
  refine ⟨?_, (claim_C8 exHookFinished).2.1 rfl, (claim_C8 exHookErrorEvt).2.2 rfl⟩
  have h := (claim_C8 exHookDownloading).1 rfl
  rw [h]
  norm_num [pyOrInt, exHookDownloading]
